import Mathlib

/-!
Verification of the gobatch batching pipeline: a shallow embedding of the
configuration contract, the lifecycle controller (`Go` / `Done`), the
per-reader ingestion loop (`read`), the reader fan-in supervisor
(`doReaders`) and the dispatch completion step (`doProcessors`), together
with theorems settling the specified properties.
-/

set_option maxHeartbeats 1000000

namespace GoBatch

/-! ## Configuration (batch/config.go) -/

/-- ConfigValues holds the four batching thresholds. `time.Duration` is a
signed 64-bit count of nanoseconds, embedded as `Int`; the `uint64` counts
are embedded as `Nat`. -/
structure ConfigValues where
  MinTime : Int
  MinItems : Nat
  MaxTime : Int
  MaxItems : Nat
deriving DecidableEq, Repr

instance : Inhabited ConfigValues := ⟨⟨0, 0, 0, 0⟩⟩

/-- ConstantConfig is a Config with constant values. -/
structure ConstantConfig where
  values : ConfigValues
deriving DecidableEq, Repr

/-- NewConstantConfig returns a Config with constant values; a `nil` values
pointer is embedded as `none` and yields the zero-valued config. -/
def NewConstantConfig : Option ConfigValues → ConstantConfig
  | none => { values := default }
  | some v => { values := v }

/-- Get implements the Config interface: it returns the stored values. -/
def ConstantConfig.Get (b : ConstantConfig) : ConfigValues := b.values

/-! ## Errors

The shared error stream carries either an error wrapped with source
provenance, the concurrent-start error, or the zero-read-concurrency
configuration error. Source errors have an opaque payload type `ε`. -/

inductive GoError (ε : Type) where
  | sourceErr (cause : ε)
  | concurrentGoCalls
  | readConcurrencyZero
deriving DecidableEq, Repr

/-- newSourceError wraps a source-origin error with source provenance. -/
def newSourceError {ε : Type} (e : ε) : GoError ε := .sourceErr e

/-- ErrConcurrentGoCalls is the error emitted when Go is called while a run
is already in progress. -/
def ErrConcurrentGoCalls {ε : Type} : GoError ε := .concurrentGoCalls

/-! ## Lifecycle controller state (batchImpl)

Channels are embedded as identifiers allocated from a counter; a Go `nil`
channel is `none`. The mutable fields of `batchImpl` form a pure state
record and each method becomes a state transition. -/

structure batchImpl where
  minTime : Int
  minItems : Nat
  maxTime : Int
  maxItems : Nat
  readConcurrency : Nat
  running : Bool
  items : Option Nat
  errs : Option Nat
  done : Option Nat
  nextChan : Nat
deriving DecidableEq, Repr

/-- The zero-valued instance, as produced by constructing a `batchImpl`
before any call to Go: `running` is false and all channels are `nil`. -/
def initialBatch (minTime : Int) (minItems : Nat) (maxTime : Int)
    (maxItems readConcurrency : Nat) : batchImpl :=
  { minTime := minTime, minItems := minItems, maxTime := maxTime,
    maxItems := maxItems, readConcurrency := readConcurrency,
    running := false, items := none, errs := none, done := none,
    nextChan := 0 }

/-- The observable effects of one call to Go: the updated field state, the
errors the call itself sends on the error channel, the channel it returns,
and whether it spawned the reader and processor supervisors. -/
structure GoResult (ε : Type) where
  state : batchImpl
  emittedOnErrs : List (GoError ε)
  ret : Option Nat
  spawnedReaders : Bool
  spawnedProcessors : Bool
deriving DecidableEq, Repr

/-- Go, as a state transition. Under the mutex: if a run is in progress it
sends ErrConcurrentGoCalls on the current error channel and returns that
channel, touching nothing else; otherwise it sets `running`, allocates
fresh items/errs/done channels, and spawns doReaders and doProcessors. -/
def batchImpl.Go (ε : Type) (b : batchImpl) : GoResult ε :=
  if b.running then
    { state := b
      emittedOnErrs := [ErrConcurrentGoCalls]
      ret := b.errs
      spawnedReaders := false
      spawnedProcessors := false }
  else
    { state := { b with running := true,
                        items := some b.nextChan,
                        errs := some (b.nextChan + 1),
                        done := some (b.nextChan + 2),
                        nextChan := b.nextChan + 3 }
      emittedOnErrs := []
      ret := some (b.nextChan + 1)
      spawnedReaders := true
      spawnedProcessors := true }

/-- Done returns the done channel under the mutex. -/
def batchImpl.Done (b : batchImpl) : Option Nat := b.done

/-- A receive on a channel is ready only when the channel is non-nil and
closed; `closed` is the set of closed channel identifiers. A receive on a
nil channel (`none`) is never ready, i.e. blocks forever. -/
def recvReady (closed : List Nat) : Option Nat → Bool
  | none => false
  | some id => closed.contains id

/-! ## The per-reader ingestion loop (batchImpl.read)

`read` spawns `src.Read` on a fresh items channel and a fresh errs channel
and then loops on a `select` over the two. The sequence of receive events
the select delivers is embedded as a trace: an item receive, an error
receive, a closed-channel receive on either channel (`ok = false`), or a
firing of the cancellation token (which the select has no case for). The
loop keeps two flags and breaks only when both channels have been seen
closed. -/

inductive SrcEvent (α ε : Type) where
  | item (a : α)
  | err (e : ε)
  | closeItems
  | closeErrs
  | cancel
deriving DecidableEq, Repr

/-- Events a reader sends on the shared channels: an item on `b.items` or a
wrapped error on `b.errs`. -/
inductive OutEvent (α ε : Type) where
  | item (a : α)
  | err (e : GoError ε)
deriving DecidableEq, Repr

/-- The loop-local state of `read`: the two closed flags. -/
structure ReadState where
  itemsClosed : Bool
  errsClosed : Bool
deriving DecidableEq, Repr

/-- One iteration body of the `read` select: an item is forwarded to the
shared items channel; an error is wrapped by newSourceError and forwarded
to the shared errs channel; a closed receive sets the matching flag; the
cancellation token has no case, so it changes nothing and emits nothing. -/
def readStep (s : ReadState) : SrcEvent α ε → ReadState × List (OutEvent α ε)
  | .item a => (s, [.item a])
  | .err e => (s, [.err (newSourceError e)])
  | .closeItems => ({ s with itemsClosed := true }, [])
  | .closeErrs => ({ s with errsClosed := true }, [])
  | .cancel => (s, [])

/-- The break condition of the `read` loop. -/
def readDone (s : ReadState) : Bool := s.itemsClosed && s.errsClosed

/-- The `read` loop over a trace of delivered events: it processes events
in order, breaking as soon as both flags are set; a trace that ends before
both flags are set leaves the loop blocked in a non-done state. Returns the
forwarded output events and the final loop state. -/
def readLoop (s : ReadState) : List (SrcEvent α ε) → List (OutEvent α ε) × ReadState
  | [] => ([], s)
  | e :: rest =>
    let p := readStep s e
    if readDone p.1 then (p.2, p.1)
    else ((p.2 ++ (readLoop p.1 rest).1), (readLoop p.1 rest).2)

/-- The output of one `read` call on a given trace. -/
def readOut (t : List (SrcEvent α ε)) : List (OutEvent α ε) :=
  (readLoop ⟨false, false⟩ t).1

/-- Whether the `read` loop returns (rather than staying blocked) on a
given trace. -/
def readTerminates (t : List (SrcEvent α ε)) : Bool :=
  readDone (readLoop ⟨false, false⟩ t).2

/-- Projection of an output event list onto the items sent to the shared
items channel. -/
def outItems : List (OutEvent α ε) → List α
  | [] => []
  | .item a :: rest => a :: outItems rest
  | .err _ :: rest => outItems rest

/-- Projection of an output event list onto the errors sent to the shared
errs channel. -/
def outErrs : List (OutEvent α ε) → List (GoError ε)
  | [] => []
  | .item _ :: rest => outErrs rest
  | .err e :: rest => e :: outErrs rest

/-- Interleave l r t means that t is an order-preserving interleaving of l and
`r`, the possible delivery orders of two independent streams. -/
inductive Interleave {γ : Type} : List γ → List γ → List γ → Prop
  | nil : Interleave [] [] []
  | left {x : γ} {xs ys zs : List γ} :
      Interleave xs ys zs → Interleave (x :: xs) ys (x :: zs)
  | right {y : γ} {xs ys zs : List γ} :
      Interleave xs ys zs → Interleave xs (y :: ys) (y :: zs)

/-- A trace is a well-formed delivery of source streams `is` (items, closed
at the end) and `es` (errors, closed at the end), with arbitrarily many
cancellation firings inserted: `src.Read` closes each channel exactly once,
after its data. -/
def SrcTrace (is : List α) (es : List ε) (t : List (SrcEvent α ε)) : Prop :=
  ∃ t₀ cs : List (SrcEvent α ε),
    (∀ e ∈ cs, e = SrcEvent.cancel) ∧
    Interleave (is.map SrcEvent.item ++ [SrcEvent.closeItems])
      (es.map SrcEvent.err ++ [SrcEvent.closeErrs]) t₀ ∧
    Interleave t₀ cs t

/-! ### Lemmas about the read loop -/

theorem readStep_itemsClosed_mono {α ε : Type} (s : ReadState) (e : SrcEvent α ε)
    (h : s.itemsClosed = true) : ((readStep s e).1).itemsClosed = true := by
  cases e <;> simp [readStep, h]

theorem readStep_errsClosed_mono {α ε : Type} (s : ReadState) (e : SrcEvent α ε)
    (h : s.errsClosed = true) : ((readStep s e).1).errsClosed = true := by
  cases e <;> simp [readStep, h]

theorem readStep_itemsClosed_source {α ε : Type} (s : ReadState) (e : SrcEvent α ε)
    (h : ((readStep s e).1).itemsClosed = true) :
    s.itemsClosed = true ∨ e = SrcEvent.closeItems := by
  cases e <;> simp_all [readStep]

theorem readStep_errsClosed_source {α ε : Type} (s : ReadState) (e : SrcEvent α ε)
    (h : ((readStep s e).1).errsClosed = true) :
    s.errsClosed = true ∨ e = SrcEvent.closeErrs := by
  cases e <;> simp_all [readStep]

/-- If the trace delivers a close of each channel (or a channel is already
flagged closed), the loop reaches its break condition. -/
theorem readLoop_done_of_closes {α ε : Type} (t : List (SrcEvent α ε)) :
    ∀ s : ReadState,
    (SrcEvent.closeItems ∈ t ∨ s.itemsClosed = true) →
    (SrcEvent.closeErrs ∈ t ∨ s.errsClosed = true) →
    readDone (readLoop s t).2 = true := by
  induction t with
  | nil =>
    intro s hi he
    simp at hi he
    simp [readLoop, readDone, hi, he]
  | cons e rest ih =>
    intro s hi he
    by_cases hd : readDone (readStep s e).1 = true
    · simp [readLoop, hd]
    · simp only [readLoop, hd, if_false]
      apply ih
      · rcases hi with hi | hi
        · rcases List.mem_cons.mp hi with hh | hh
          · right
            rw [← hh]
            simp [readStep]
          · left; exact hh
        · right; exact readStep_itemsClosed_mono s e hi
      · rcases he with he | he
        · rcases List.mem_cons.mp he with hh | hh
          · right
            rw [← hh]
            simp [readStep]
          · left; exact hh
        · right; exact readStep_errsClosed_mono s e he

/-- The items-closed flag at the end of the loop can only come from the
initial state or from a closeItems event in the trace. -/
theorem readLoop_itemsClosed_source {α ε : Type} (t : List (SrcEvent α ε)) :
    ∀ s : ReadState, ((readLoop s t).2).itemsClosed = true →
    s.itemsClosed = true ∨ SrcEvent.closeItems ∈ t := by
  induction t with
  | nil =>
    intro s h
    simp [readLoop] at h
    left; exact h
  | cons e rest ih =>
    intro s h
    by_cases hd : readDone (readStep s e).1 = true
    · simp only [readLoop, hd, if_true] at h
      rcases readStep_itemsClosed_source s e h with hh | hh
      · left; exact hh
      · right; exact hh ▸ List.mem_cons_self _ _
    · simp only [readLoop, hd, if_false] at h
      rcases ih (readStep s e).1 h with hh | hh
      · rcases readStep_itemsClosed_source s e hh with h3 | h3
        · left; exact h3
        · right; exact h3 ▸ List.mem_cons_self _ _
      · right; exact List.mem_cons_of_mem _ hh

/-- The errs-closed flag at the end of the loop can only come from the
initial state or from a closeErrs event in the trace. -/
theorem readLoop_errsClosed_source {α ε : Type} (t : List (SrcEvent α ε)) :
    ∀ s : ReadState, ((readLoop s t).2).errsClosed = true →
    s.errsClosed = true ∨ SrcEvent.closeErrs ∈ t := by
  induction t with
  | nil =>
    intro s h
    simp [readLoop] at h
    left; exact h
  | cons e rest ih =>
    intro s h
    by_cases hd : readDone (readStep s e).1 = true
    · simp only [readLoop, hd, if_true] at h
      rcases readStep_errsClosed_source s e h with hh | hh
      · left; exact hh
      · right; exact hh ▸ List.mem_cons_self _ _
    · simp only [readLoop, hd, if_false] at h
      rcases ih (readStep s e).1 h with hh | hh
      · rcases readStep_errsClosed_source s e hh with h3 | h3
        · left; exact h3
        · right; exact h3 ▸ List.mem_cons_self _ _
      · right; exact List.mem_cons_of_mem _ hh

/-- Inversion of an interleaving with a cons target. -/
theorem interleave_cons_inv {γ : Type} {l1 l2 t : List γ} {x : γ}
    (h : Interleave l1 l2 (x :: t)) :
    (∃ l1', l1 = x :: l1' ∧ Interleave l1' l2 t) ∨
    (∃ l2', l2 = x :: l2' ∧ Interleave l1 l2' t) := by
  cases h with
  | left h' => exact Or.inl ⟨_, rfl, h'⟩
  | right h' => exact Or.inr ⟨_, rfl, h'⟩

theorem interleave_nil_target {γ : Type} {l1 l2 : List γ}
    (h : Interleave l1 l2 []) : l1 = [] ∧ l2 = [] := by
  cases h; exact ⟨rfl, rfl⟩

theorem interleave_nil_left {γ : Type} : ∀ {ys zs : List γ},
    Interleave [] ys zs → zs = ys := by
  intro ys zs h
  induction zs generalizing ys with
  | nil => cases h; rfl
  | cons z zs ih =>
    cases h with
    | right h' => rw [ih h']

theorem interleave_nil_right {γ : Type} : ∀ {xs zs : List γ},
    Interleave xs [] zs → zs = xs := by
  intro xs zs h
  induction zs generalizing xs with
  | nil => cases h; rfl
  | cons z zs ih =>
    cases h with
    | left h' => rw [ih h']

/-- Cancellation firings delivered to the loop change neither its outputs
nor its state: the select has no case for them. -/
theorem readLoop_cancels {α ε : Type} (t : List (SrcEvent α ε)) :
    ∀ (t₀ cs : List (SrcEvent α ε)) (s : ReadState),
    (∀ e ∈ cs, e = SrcEvent.cancel) → Interleave t₀ cs t →
    readDone s = false → readLoop s t = readLoop s t₀ := by
  induction t with
  | nil =>
    intro t₀ cs s _ h _
    obtain ⟨h1, _⟩ := interleave_nil_target h
    rw [h1]
  | cons e rest ih =>
    intro t₀ cs s hc h hs
    rcases interleave_cons_inv h with ⟨t₀', rfl, h'⟩ | ⟨cs', rfl, h'⟩
    · by_cases hd : readDone (readStep s e).1 = true
      · simp only [readLoop, hd, if_true]
      · simp only [readLoop, hd, if_false]
        rw [ih t₀' cs (readStep s e).1 hc h' (by simp [hd])]
    · have he : e = SrcEvent.cancel := hc e (List.mem_cons_self _ _)
      subst he
      have hstep : readStep (ε := ε) (α := α) s SrcEvent.cancel = (s, []) := rfl
      simp only [readLoop, hstep, hs, List.nil_append]
      rw [ih t₀ cs' s (fun e he' => hc e (List.mem_cons_of_mem _ he')) h' hs]
      simp

/-- After the items channel is closed, the rest of the error stream is
forwarded wrapped, and the loop breaks at closeErrs. -/
theorem readLoop_errs_phase {α ε : Type} (es : List ε) :
    readLoop (α := α) ⟨true, false⟩
        (es.map SrcEvent.err ++ [SrcEvent.closeErrs])
      = (es.map fun e => OutEvent.err (newSourceError e), ⟨true, true⟩) := by
  induction es with
  | nil => simp [readLoop, readStep, readDone]
  | cons e es ih => simp [readLoop, readStep, readDone, ih]

/-- After the errs channel is closed, the rest of the item stream is
forwarded, and the loop breaks at closeItems. -/
theorem readLoop_items_phase {α ε : Type} (is : List α) :
    readLoop (ε := ε) ⟨false, true⟩
        (is.map SrcEvent.item ++ [SrcEvent.closeItems])
      = (is.map OutEvent.item, ⟨true, true⟩) := by
  induction is with
  | nil => simp [readLoop, readStep, readDone]
  | cons a is ih => simp [readLoop, readStep, readDone, ih]

theorem outItems_map_item {α ε : Type} (l : List α) :
    outItems (ε := ε) (l.map OutEvent.item) = l := by
  induction l <;> simp_all [outItems]

theorem outErrs_map_item {α ε : Type} (l : List α) :
    outErrs (ε := ε) (l.map OutEvent.item) = [] := by
  induction l <;> simp_all [outErrs]

theorem outItems_map_err {α ε : Type} (l : List ε) :
    outItems (α := α) (l.map fun e => OutEvent.err (newSourceError e)) = [] := by
  induction l <;> simp_all [outItems]

theorem outErrs_map_err {α ε : Type} (l : List ε) :
    outErrs (α := α) (l.map fun e => OutEvent.err (newSourceError e))
      = l.map newSourceError := by
  induction l <;> simp_all [outErrs]

/-- On a well-formed cancellation-free delivery of streams `is` and `es`,
the loop forwards exactly the items `is` in order, exactly the errors `es`
wrapped in order, and ends with both flags set. -/
theorem readLoop_src_spec {α ε : Type} (t : List (SrcEvent α ε)) :
    ∀ (is : List α) (es : List ε),
    Interleave (is.map SrcEvent.item ++ [SrcEvent.closeItems])
      (es.map SrcEvent.err ++ [SrcEvent.closeErrs]) t →
    outItems (readLoop (⟨false, false⟩ : ReadState) t).1 = is ∧
    outErrs (readLoop (⟨false, false⟩ : ReadState) t).1
      = es.map newSourceError ∧
    (readLoop (⟨false, false⟩ : ReadState) t).2 = ⟨true, true⟩ := by
  induction t with
  | nil =>
    intro is es h
    exfalso
    have := (interleave_nil_target h).1
    simp at this
  | cons e rest ih =>
    intro is es h
    rcases interleave_cons_inv h with ⟨l1', heq, h'⟩ | ⟨l2', heq, h'⟩
    · cases is with
      | nil =>
        simp at heq
        obtain ⟨he, hl⟩ := heq
        subst he
        subst hl
        have ht : rest = es.map SrcEvent.err ++ [SrcEvent.closeErrs] :=
          interleave_nil_left h'
        subst ht
        have hstep : readStep (ε := ε) (α := α) ⟨false, false⟩
            SrcEvent.closeItems = (⟨true, false⟩, []) := rfl
        simp only [readLoop, hstep, readDone, Bool.and_false, Bool.false_eq_true,
          if_false, List.nil_append, readLoop_errs_phase]
        exact ⟨outItems_map_err es, outErrs_map_err es, trivial⟩
      | cons a is' =>
        simp at heq
        obtain ⟨he, hl⟩ := heq
        subst he
        subst hl
        have hstep : readStep (ε := ε) ⟨false, false⟩ (SrcEvent.item a)
            = (⟨false, false⟩, [OutEvent.item a]) := rfl
        simp only [readLoop, hstep, readDone, Bool.and_false, Bool.false_eq_true,
          if_false]
        obtain ⟨h1, h2, h3⟩ := ih is' es h'
        refine ⟨?_, ?_, h3⟩
        · simp [outItems, h1]
        · simp [outErrs, h2]
    · cases es with
      | nil =>
        simp at heq
        obtain ⟨he, hl⟩ := heq
        subst he
        subst hl
        have ht : rest = is.map SrcEvent.item ++ [SrcEvent.closeItems] :=
          interleave_nil_right h'
        subst ht
        have hstep : readStep (ε := ε) (α := α) ⟨false, false⟩
            SrcEvent.closeErrs = (⟨false, true⟩, []) := rfl
        simp only [readLoop, hstep, readDone, Bool.false_and, Bool.false_eq_true,
          if_false, List.nil_append, readLoop_items_phase]
        exact ⟨outItems_map_item is, outErrs_map_item is, trivial⟩
      | cons e' es' =>
        simp at heq
        obtain ⟨he, hl⟩ := heq
        subst he
        subst hl
        have hstep : readStep (α := α) ⟨false, false⟩ (SrcEvent.err e')
            = (⟨false, false⟩, [OutEvent.err (newSourceError e')]) := rfl
        simp only [readLoop, hstep, readDone, Bool.and_false, Bool.false_eq_true,
          if_false]
        obtain ⟨h1, h2, h3⟩ := ih is es' h'
        refine ⟨?_, ?_, h3⟩
        · simp [outItems, h1]
        · simp [outErrs, h2]

/-! ### Fan-in of the K readers

All readers send on the same two shared channels, so the shared item
stream is an order-preserving merge of the readers' individual forwarded
item sequences. A K-way merge is a nested two-way interleaving. -/

/-- MergeAll ls m means that m is an order-preserving merge of the lists in
ls. -/
inductive MergeAll {γ : Type} : List (List γ) → List γ → Prop
  | nil : MergeAll [] []
  | cons {l : List γ} {ls : List (List γ)} {m' m : List γ} :
      Interleave l m' m → MergeAll ls m' → MergeAll (l :: ls) m

theorem interleave_perm {γ : Type} {l1 l2 t : List γ}
    (h : Interleave l1 l2 t) : List.Perm t (l1 ++ l2) := by
  induction h with
  | nil => exact List.Perm.nil
  | left _ ih => exact List.Perm.cons _ ih
  | right _ ih => exact (List.Perm.cons _ ih).trans List.perm_middle.symm

theorem mergeAll_perm {γ : Type} {ls : List (List γ)} {m : List γ}
    (h : MergeAll ls m) : List.Perm m ls.flatten := by
  induction h with
  | nil => simp
  | cons hI _ ih =>
    exact (interleave_perm hI).trans (List.Perm.append_left _ ih)

/-- All elements of `xs`, then all of `ys`, is one possible interleaving. -/
theorem interleave_append {γ : Type} (xs ys : List γ) :
    Interleave xs ys (xs ++ ys) := by
  induction xs with
  | nil =>
    induction ys with
    | nil => exact Interleave.nil
    | cons y ys ih => exact Interleave.right ih
  | cons x xs ih => exact Interleave.left ih

theorem interleave_with_nil {γ : Type} (xs : List γ) : Interleave xs [] xs := by
  induction xs with
  | nil => exact Interleave.nil
  | cons x xs ih => exact Interleave.left ih

theorem length_flatten_const {α : Type} (srcs : List (List α)) (n : Nat)
    (hn : ∀ s ∈ srcs, s.length = n) :
    srcs.flatten.length = srcs.length * n := by
  induction srcs with
  | nil => simp
  | cons s srcs ih =>
    simp only [List.flatten_cons, List.length_append, List.length_cons]
    rw [hn s (List.mem_cons_self _ _),
      ih (fun s' h => hn s' (List.mem_cons_of_mem _ h))]
    ring

/-! ## The Batch Assembly Engine -/

/-- Modelled from the spec: the Batch Assembly Engine is absent from src
(only the spec, spec.md section 4.3, describes it). It consumes the shared
item stream in arrival order, buffering items (the Empty/Accumulating
states) and sealing the buffer into a batch whenever the sealing policy
fires on an item arrival; rules 1-3 of the policy depend on the
accumulated count, the elapsed time against the armed deadlines and the
configuration snapshot, abstracted here as a sealing decision oracle
consulted on every arrival with the arrival index and the buffer; rule 4
is explicit: at end-of-input a nonempty remainder is sealed as the final
batch, and an empty buffer seals no batch. -/
def assemble {α : Type} (sealP : Nat → List α → Bool) :
    Nat → List α → List α → List (List α)
  | _, buf, [] => if buf.isEmpty then [] else [buf]
  | k, buf, a :: rest =>
    if sealP k (buf ++ [a]) then
      (buf ++ [a]) :: assemble sealP (k + 1) [] rest
    else
      assemble sealP (k + 1) (buf ++ [a]) rest

/-- Assembly conserves items: the sealed batches of a run flatten back to
the consumed stream, wherever the sealing decisions place the batch
boundaries. -/
theorem assemble_flatten {α : Type} (sealP : Nat → List α → Bool) :
    ∀ (l : List α) (k : Nat) (buf : List α),
    (assemble sealP k buf l).flatten = buf ++ l := by
  intro l
  induction l with
  | nil =>
    intro k buf
    by_cases hb : buf.isEmpty
    · simp [assemble, hb, List.isEmpty_iff.mp hb]
    · simp [assemble, hb]
  | cons a rest ih =>
    intro k buf
    by_cases hs : sealP k (buf ++ [a]) = true
    · simp [assemble, hs, ih]
    · simp [assemble, hs, ih]

/-! ## The reader fan-in supervisor (batchImpl.doReaders)

doReaders spawns one `read` task per unit of read concurrency (each
invoking `src.Read`), waits on the WaitGroup until every reader's loop has
returned, and only then closes the shared items and errs channels (under
the mutex); with read concurrency 0 it instead sends a single
configuration error and closes the channels without spawning any reader.
The supervisor and the reader tasks are embedded as a small-step
transition system; the read concurrency is the number of per-reader
traces. -/

/-- Observable events of a doReaders run: a send on a shared channel by a
reader (or the supervisor's configuration error), the close of the shared
items channel, the close of the shared errs channel, or the spawning of
one `src.Read` call. -/
inductive DREvent (α ε : Type) where
  | out (e : OutEvent α ε)
  | closeItems
  | closeErrs
  | spawnRead
deriving DecidableEq, Repr

/-- One reader task: its loop state and the not-yet-delivered remainder of
its source trace. -/
structure Reader (α ε : Type) where
  st : ReadState
  rest : List (SrcEvent α ε)
deriving DecidableEq, Repr

/-- Supervisor control point: before the concurrency check, while waiting
on the WaitGroup, and after closing the shared channels. -/
inductive DRPhase where
  | spawn
  | wait
  | finished
deriving DecidableEq, Repr

structure DRState (α ε : Type) where
  readers : List (Reader α ε)
  phase : DRPhase
deriving DecidableEq, Repr

/-- Interleaved execution steps of the supervisor and the reader tasks.
A reader may fire only while its loop has not reached its break condition;
the supervisor closes the shared channels (both, in program order, under
one mutex hold) only when every spawned reader is done. -/
inductive DRStep {α ε : Type} (traces : List (List (SrcEvent α ε))) :
    DRState α ε → List (DREvent α ε) → DRState α ε → Prop
  | spawnPos (h : 0 < traces.length) :
      DRStep traces ⟨[], .spawn⟩ (traces.map fun _ => .spawnRead)
        ⟨traces.map fun t => ⟨⟨false, false⟩, t⟩, .wait⟩
  | spawnZero (h : traces.length = 0) :
      DRStep traces ⟨[], .spawn⟩
        [.out (.err .readConcurrencyZero)] ⟨[], .wait⟩
  | readerStep (rs : List (Reader α ε)) (i : Nat) (r : Reader α ε)
      (e : SrcEvent α ε) (rest' : List (SrcEvent α ε))
      (hi : rs[i]? = some r)
      (hne : readDone r.st = false)
      (hrest : r.rest = e :: rest') :
      DRStep traces ⟨rs, .wait⟩ ((readStep r.st e).2.map .out)
        ⟨rs.set i ⟨(readStep r.st e).1, rest'⟩, .wait⟩
  | close (rs : List (Reader α ε))
      (h : ∀ r ∈ rs, readDone r.st = true) :
      DRStep traces ⟨rs, .wait⟩ [.closeItems, .closeErrs] ⟨rs, .finished⟩

/-- Multi-step execution, accumulating the emitted events. -/
inductive DRExec {α ε : Type} (traces : List (List (SrcEvent α ε))) :
    DRState α ε → List (DREvent α ε) → DRState α ε → Prop
  | refl (s : DRState α ε) : DRExec traces s [] s
  | step {s s' s'' : DRState α ε} {ev h : List (DREvent α ε)} :
      DRStep traces s ev s' → DRExec traces s' h s'' →
      DRExec traces s (ev ++ h) s''

/-- The state at the top of doReaders. -/
def DRInit {α ε : Type} : DRState α ε := ⟨[], .spawn⟩

theorem drstep_finished {α ε : Type} {traces : List (List (SrcEvent α ε))}
    {rs : List (Reader α ε)} {ev : List (DREvent α ε)} {s' : DRState α ε}
    (h : DRStep traces ⟨rs, .finished⟩ ev s') : False := by
  cases h

theorem drexec_finished {α ε : Type} {traces : List (List (SrcEvent α ε))}
    {rs : List (Reader α ε)} {h : List (DREvent α ε)} {s' : DRState α ε}
    (hex : DRExec traces ⟨rs, .finished⟩ h s') :
    h = [] ∧ s' = ⟨rs, .finished⟩ := by
  cases hex with
  | refl => exact ⟨rfl, rfl⟩
  | step hst _ => exact absurd hst drstep_finished

/-- Safety of the supervisor: if a close of a shared channel appears in
the history, then it is the pair closeItems, closeErrs at the very end,
nothing before it is a close, at that point every reader had reached its
break condition (both of its streams seen closed), and the supervisor has
terminated. -/
theorem drexec_close_safety {α ε : Type}
    {traces : List (List (SrcEvent α ε))} {s₀ s : DRState α ε}
    {h : List (DREvent α ε)} (hex : DRExec traces s₀ h s) :
    (DREvent.closeItems ∈ h ∨ DREvent.closeErrs ∈ h) →
    (∃ h₁, h = h₁ ++ [DREvent.closeItems, DREvent.closeErrs] ∧
      DREvent.closeItems ∉ h₁ ∧ DREvent.closeErrs ∉ h₁) ∧
    (∀ r ∈ s.readers, readDone r.st = true) ∧
    s.phase = DRPhase.finished := by
  induction hex with
  | refl s => intro hc; simp at hc
  | @step s₁ s₂ s₃ ev h' hst hrest ih =>
    intro hc
    cases hst with
    | close rs hall =>
      obtain ⟨he, hs⟩ := drexec_finished hrest
      subst he
      subst hs
      exact ⟨⟨[], by simp, by simp, by simp⟩, hall, rfl⟩
    | spawnPos hpos =>
      have hc' : DREvent.closeItems ∈ h' ∨ DREvent.closeErrs ∈ h' := by
        rcases hc with hc | hc
        · rcases List.mem_append.mp hc with hx | hx
          · simp at hx
          · exact Or.inl hx
        · rcases List.mem_append.mp hc with hx | hx
          · simp at hx
          · exact Or.inr hx
      obtain ⟨⟨h₁, hh, hn1, hn2⟩, hrd, hph⟩ := ih hc'
      refine ⟨⟨(List.map (fun _ => DREvent.spawnRead) traces ++ h₁), ?_, ?_, ?_⟩, hrd, hph⟩
      · rw [hh, List.append_assoc]
      · simp [hn1]
      · simp [hn2]
    | spawnZero hzero =>
      have hc' : DREvent.closeItems ∈ h' ∨ DREvent.closeErrs ∈ h' := by
        rcases hc with hc | hc
        · rcases List.mem_append.mp hc with hx | hx
          · simp at hx
          · exact Or.inl hx
        · rcases List.mem_append.mp hc with hx | hx
          · simp at hx
          · exact Or.inr hx
      obtain ⟨⟨h₁, hh, hn1, hn2⟩, hrd, hph⟩ := ih hc'
      refine ⟨⟨([DREvent.out (OutEvent.err GoError.readConcurrencyZero)] ++ h₁), ?_, ?_, ?_⟩, hrd, hph⟩
      · rw [hh, List.append_assoc]
      · simp [hn1]
      · simp [hn2]
    | readerStep rs i r e rest' hi hne hrestr =>
      have hc' : DREvent.closeItems ∈ h' ∨ DREvent.closeErrs ∈ h' := by
        rcases hc with hc | hc
        · rcases List.mem_append.mp hc with hx | hx
          · simp at hx
          · exact Or.inl hx
        · rcases List.mem_append.mp hc with hx | hx
          · simp at hx
          · exact Or.inr hx
      obtain ⟨⟨h₁, hh, hn1, hn2⟩, hrd, hph⟩ := ih hc'
      refine ⟨⟨((readStep r.st e).2.map DREvent.out ++ h₁), ?_, ?_, ?_⟩, hrd, hph⟩
      · rw [hh, List.append_assoc]
      · simp [hn1]
      · simp [hn2]

/-! ## Run lifecycle completion (batchImpl.doProcessors and Done)

doProcessors consumes the shared streams and dispatches sealed batches; in
the source only its final block is given (the drain loop is a comment):
under one mutex hold it sets `running = false` and closes the done
channel, once the processors are complete. A run's completion structure is
embedded as flags: ingestion drained (doReaders has closed the shared
streams), dispatch drained (all batches processed), and the done channel
closed. -/

structure LifeState where
  running : Bool
  ingestDrained : Bool
  dispatchDrained : Bool
  doneClosed : Bool
deriving DecidableEq, Repr

/-- Modelled from the spec: the drain loop of doProcessors is elided in
the source, so the ordering of the drains is taken from the spec —
dispatch completes only after ingestion has signaled end-of-input — while
the final step embeds the source's mutex block: once dispatch is complete
it sets `running := false` and closes the done channel atomically, and a
channel can be closed only while not yet closed. -/
inductive LifeStep : LifeState → LifeState → Prop
  | ingest (s : LifeState) (h : s.ingestDrained = false) :
      LifeStep s { s with ingestDrained := true }
  | dispatch (s : LifeState) (h1 : s.ingestDrained = true)
      (h2 : s.dispatchDrained = false) :
      LifeStep s { s with dispatchDrained := true }
  | finish (s : LifeState) (h1 : s.dispatchDrained = true)
      (h2 : s.doneClosed = false) :
      LifeStep s { s with running := false, doneClosed := true }

/-- The lifecycle state just after Go accepts a run. -/
def runStart : LifeState := ⟨true, false, false, false⟩

inductive LifeReach : LifeState → LifeState → Prop
  | refl (s : LifeState) : LifeReach s s
  | step {s s' s'' : LifeState} : LifeReach s s' → LifeStep s' s'' →
      LifeReach s s''

theorem lifeReach_invariant {s : LifeState} (h : LifeReach runStart s) :
    (s.dispatchDrained = true → s.ingestDrained = true) ∧
    (s.doneClosed = true →
      s.running = false ∧ s.ingestDrained = true ∧
        s.dispatchDrained = true) := by
  induction h with
  | refl => exact ⟨by simp [runStart], by simp [runStart]⟩
  | step _ hst ih =>
    cases hst with
    | ingest h =>
      exact ⟨fun _ => rfl, fun hd => ⟨(ih.2 hd).1, rfl, (ih.2 hd).2.2⟩⟩
    | dispatch h1 h2 =>
      exact ⟨fun _ => h1, fun hd => ⟨(ih.2 hd).1, h1, rfl⟩⟩
    | finish h1 h2 =>
      exact ⟨fun _ => ih.1 h1, fun _ => ⟨rfl, ih.1 h1, h1⟩⟩

theorem lifeStep_none_after_done {s : LifeState}
    (h1 : s.ingestDrained = true) (h2 : s.dispatchDrained = true)
    (h3 : s.doneClosed = true) : ∀ s', ¬ LifeStep s s' := by
  intro s' hst
  cases hst with
  | ingest h => rw [h1] at h; simp at h
  | dispatch _ h => rw [h2] at h; simp at h
  | finish _ h => rw [h3] at h; simp at h

/-! ## Supervisor executions with read concurrency zero -/

theorem drexec_wait_empty {α ε : Type} {h : List (DREvent α ε)}
    {s : DRState α ε}
    (hex : DRExec ([] : List (List (SrcEvent α ε))) ⟨[], .wait⟩ h s) :
    (h = [] ∧ s = ⟨[], .wait⟩) ∨
    (h = [DREvent.closeItems, DREvent.closeErrs] ∧
      s = ⟨[], .finished⟩) := by
  cases hex with
  | refl => exact Or.inl ⟨rfl, rfl⟩
  | step hst hrest =>
    cases hst with
    | readerStep rs i r e rest' hi hne hrest' => simp at hi
    | close rs hall =>
      obtain ⟨he, hs⟩ := drexec_finished hrest
      subst he
      subst hs
      exact Or.inr ⟨rfl, rfl⟩

/-- With read concurrency 0 the supervisor's behaviour is fully
determined: it emits the configuration error and then closes the shared
channels. -/
theorem drexec_zero {α ε : Type} {h : List (DREvent α ε)} {s : DRState α ε}
    (hex : DRExec ([] : List (List (SrcEvent α ε))) DRInit h s) :
    (h = [] ∧ s = DRInit) ∨
    (h = [DREvent.out (OutEvent.err GoError.readConcurrencyZero)] ∧
      s = ⟨[], DRPhase.wait⟩) ∨
    (h = [DREvent.out (OutEvent.err GoError.readConcurrencyZero),
        DREvent.closeItems, DREvent.closeErrs] ∧
      s = ⟨[], DRPhase.finished⟩) := by
  cases hex with
  | refl => exact Or.inl ⟨rfl, rfl⟩
  | step hst hrest =>
    cases hst with
    | spawnPos hpos => simp at hpos
    | spawnZero hzero =>
      rcases drexec_wait_empty hrest with ⟨he, hs⟩ | ⟨he, hs⟩
      · subst he
        subst hs
        exact Or.inr (Or.inl ⟨rfl, rfl⟩)
      · subst he
        subst hs
        exact Or.inr (Or.inr ⟨rfl, rfl⟩)


/-- On any well-formed source trace, read forwards all items in order, all
errors wrapped in order, and its loop returns. -/
theorem readOut_src_trace {α ε : Type} (is : List α) (es : List ε)
    (t : List (SrcEvent α ε)) (h : SrcTrace is es t) :
    outItems (readOut t) = is ∧
    outErrs (readOut t) = es.map newSourceError ∧
    readTerminates t = true := by
  obtain ⟨t₀, cs, hc, h₀, hI⟩ := h
  have heq : readLoop (⟨false, false⟩ : ReadState) t
      = readLoop ⟨false, false⟩ t₀ :=
    readLoop_cancels t t₀ cs ⟨false, false⟩ hc hI (by simp [readDone])
  obtain ⟨h1, h2, h3⟩ := readLoop_src_spec t₀ is es h₀
  unfold readOut readTerminates
  rw [heq, h3]
  exact ⟨h1, h2, rfl⟩

/-- Each reader's contribution to the shared item stream is exactly its
source sequence. -/
theorem readOuts_eq_srcs {α ε : Type} {srcs : List (List α)}
    {traces : List (List (SrcEvent α ε))}
    (h : List.Forall₂ (fun is t => SrcTrace is ([] : List ε) t) srcs traces) :
    traces.map (fun t => outItems (readOut t)) = srcs := by
  induction h with
  | nil => rfl
  | cons h1 _ ih =>
    simp only [List.map_cons, ih]
    rw [(readOut_src_trace _ [] _ h1).1]


end GoBatch

namespace GoBatch

/-! ## Claims about Go, Done and ConstantConfig -/

/-- C1: if a run is in progress (`running = true`), a further call to Go
emits ErrConcurrentGoCalls on the error channel, which is exactly the
channel it returns, changes no field of the instance, and spawns no reader
or processor tasks, so the active run proceeds undisturbed. -/
theorem Go_concurrent_rejected (ε : Type) (b : batchImpl)
    (h : b.running = true) :
    (b.Go ε).state = b ∧
    (b.Go ε).emittedOnErrs = [ErrConcurrentGoCalls] ∧
    (b.Go ε).ret = b.errs ∧
    (b.Go ε).spawnedReaders = false ∧
    (b.Go ε).spawnedProcessors = false := by
  simp [batchImpl.Go, h]

/-- Witness for C1 at a concrete running instance. -/
theorem Go_concurrent_rejected_witness :
    ((initialBatch 0 0 0 0 1).Go Unit).state.running = true ∧
    ((((initialBatch 0 0 0 0 1).Go Unit).state.Go Unit).state
        = ((initialBatch 0 0 0 0 1).Go Unit).state ∧
      (((initialBatch 0 0 0 0 1).Go Unit).state.Go Unit).emittedOnErrs
        = [ErrConcurrentGoCalls] ∧
      (((initialBatch 0 0 0 0 1).Go Unit).state.Go Unit).ret
        = ((initialBatch 0 0 0 0 1).Go Unit).state.errs ∧
      (((initialBatch 0 0 0 0 1).Go Unit).state.Go Unit).spawnedReaders = false ∧
      (((initialBatch 0 0 0 0 1).Go Unit).state.Go Unit).spawnedProcessors = false) :=
  ⟨by decide, Go_concurrent_rejected Unit _ (by decide)⟩

/-- C9: a ConstantConfig built from a non-nil values pointer always returns
from Get the values supplied at construction, and any two calls to Get
return equal results. -/
theorem ConstantConfig_Get_constant (v : ConfigValues) :
    (NewConstantConfig (some v)).Get = v ∧
    (NewConstantConfig (some v)).Get = (NewConstantConfig (some v)).Get :=
  ⟨rfl, rfl⟩

/-- C10: before any Go call has been accepted, Done returns the nil (zero
valued) channel, and a receive on it is never ready no matter which
channels are closed: the completion signal can never be observed. -/
theorem Done_before_Go_nil (minTime : Int) (minItems : Nat) (maxTime : Int)
    (maxItems readConcurrency : Nat) (closed : List Nat) :
    (initialBatch minTime minItems maxTime maxItems readConcurrency).Done
      = none ∧
    recvReady closed
      (initialBatch minTime minItems maxTime maxItems readConcurrency).Done
      = false :=
  ⟨rfl, rfl⟩

/-- C3: the read loop returns exactly when both of its source's streams
have been closed — in particular cancellation firings alone (a trace with
no close events) never terminate it — and on a well-formed source trace
every item and every error emitted before closing is forwarded. -/
theorem read_returns_iff_both_streams_closed {α ε : Type} :
    (∀ t : List (SrcEvent α ε),
      readTerminates t = true ↔
        (SrcEvent.closeItems ∈ t ∧ SrcEvent.closeErrs ∈ t)) ∧
    (∀ (is : List α) (es : List ε) (t : List (SrcEvent α ε)),
      SrcTrace is es t →
      outItems (readOut t) = is ∧
      outErrs (readOut t) = es.map newSourceError) := by
  constructor
  · intro t
    constructor
    · intro h
      unfold readTerminates readDone at h
      rw [Bool.and_eq_true] at h
      have h1 := readLoop_itemsClosed_source t ⟨false, false⟩ h.1
      have h2 := readLoop_errsClosed_source t ⟨false, false⟩ h.2
      simp at h1 h2
      exact ⟨h1, h2⟩
    · intro h
      exact readLoop_done_of_closes t ⟨false, false⟩ (Or.inl h.1) (Or.inl h.2)
  · intro is es t h
    exact ⟨(readOut_src_trace is es t h).1, (readOut_src_trace is es t h).2.1⟩

/-- Witness for C3 on the concrete trace
item 1, closeItems, err 2, closeErrs, cancel. -/
theorem read_returns_iff_both_streams_closed_witness :
    (readTerminates [SrcEvent.item 1, SrcEvent.closeItems,
        SrcEvent.err 2, SrcEvent.closeErrs, SrcEvent.cancel] = true ↔
      (SrcEvent.closeItems ∈ [SrcEvent.item 1, SrcEvent.closeItems,
          SrcEvent.err 2, SrcEvent.closeErrs, SrcEvent.cancel] ∧
        SrcEvent.closeErrs ∈ [SrcEvent.item 1, SrcEvent.closeItems,
          SrcEvent.err (2 : Nat), SrcEvent.closeErrs, SrcEvent.cancel])) ∧
    (outItems (readOut [SrcEvent.item 1, SrcEvent.closeItems,
        SrcEvent.err 2, SrcEvent.closeErrs, SrcEvent.cancel]) = [(1 : Nat)] ∧
      outErrs (readOut [SrcEvent.item 1, SrcEvent.closeItems,
        SrcEvent.err 2, SrcEvent.closeErrs, SrcEvent.cancel])
        = List.map newSourceError [(2 : Nat)]) :=
  ⟨read_returns_iff_both_streams_closed.1 _,
    read_returns_iff_both_streams_closed.2 [1] [2] _
      ⟨[SrcEvent.item 1, SrcEvent.closeItems, SrcEvent.err 2,
          SrcEvent.closeErrs],
        [SrcEvent.cancel],
        by decide,
        Interleave.left (Interleave.left (Interleave.right
          (Interleave.right Interleave.nil))),
        Interleave.left (Interleave.left (Interleave.left
          (Interleave.left (Interleave.right Interleave.nil))))⟩⟩

/-- C6: for every interleaving of one reader's item and error streams, the
items the reader forwards to the shared item stream are exactly its
source's items, in source order. -/
theorem read_preserves_reader_order {α ε : Type} (is : List α) (es : List ε)
    (t : List (SrcEvent α ε)) (h : SrcTrace is es t) :
    outItems (readOut t) = is :=
  (readOut_src_trace is es t h).1

/-- Witness for C6: an error is delivered between the two items, and the
forwarded items are still 1, 2 in order. -/
theorem read_preserves_reader_order_witness :
    outItems (readOut [SrcEvent.item 1, SrcEvent.err 7, SrcEvent.item 2,
        SrcEvent.closeErrs, SrcEvent.closeItems]) = [(1 : Nat), 2] :=
  read_preserves_reader_order [1, 2] [(7 : Nat)] _
    ⟨[SrcEvent.item 1, SrcEvent.err 7, SrcEvent.item 2, SrcEvent.closeErrs,
        SrcEvent.closeItems],
      [],
      by decide,
      Interleave.left (Interleave.right (Interleave.left
        (Interleave.right (Interleave.left Interleave.nil)))),
      Interleave.left (Interleave.left (Interleave.left
        (Interleave.left (Interleave.left Interleave.nil))))⟩

/-- C8: the loop body forwards a source error wrapped by newSourceError and
leaves the loop state unchanged, so a source error can never satisfy the
break condition; consequently on any well-formed source trace all errors
are forwarded wrapped, in order, and all items — including items delivered
after errors — are still forwarded. -/
theorem read_wraps_errors_and_continues {α ε : Type} :
    (∀ (s : ReadState) (e : ε),
      readStep (α := α) s (SrcEvent.err e)
        = (s, [OutEvent.err (newSourceError e)])) ∧
    (∀ (is : List α) (es : List ε) (t : List (SrcEvent α ε)),
      SrcTrace is es t →
      outErrs (readOut t) = es.map newSourceError ∧
      outItems (readOut t) = is) := by
  refine ⟨fun s e => rfl, fun is es t h => ?_⟩
  exact ⟨(readOut_src_trace is es t h).2.1, (readOut_src_trace is es t h).1⟩

/-- Witness for C8: two errors around an item are both forwarded wrapped
and the item that follows the first error is still forwarded. -/
theorem read_wraps_errors_and_continues_witness :
    readStep (⟨false, false⟩ : ReadState) (SrcEvent.err (5 : Nat))
        = ((⟨false, false⟩ : ReadState),
          [OutEvent.err (α := Nat) (newSourceError 5)]) ∧
    (outErrs (readOut [SrcEvent.err 5, SrcEvent.item 3, SrcEvent.err 6,
        SrcEvent.closeItems, SrcEvent.closeErrs])
        = List.map newSourceError [(5 : Nat), 6] ∧
      outItems (readOut [SrcEvent.err 5, SrcEvent.item 3, SrcEvent.err 6,
        SrcEvent.closeItems, SrcEvent.closeErrs]) = [(3 : Nat)]) :=
  ⟨read_wraps_errors_and_continues.1 ⟨false, false⟩ 5,
    read_wraps_errors_and_continues.2 [3] [5, 6] _
      ⟨[SrcEvent.err 5, SrcEvent.item 3, SrcEvent.err 6, SrcEvent.closeItems,
          SrcEvent.closeErrs],
        [],
        by decide,
        Interleave.right (Interleave.left (Interleave.right
          (Interleave.left (Interleave.right Interleave.nil)))),
        Interleave.left (Interleave.left (Interleave.left
          (Interleave.left (Interleave.left Interleave.nil))))⟩⟩

/-- C2: for K ≥ 1 readers whose sources produce disjoint error-free
sequences of n items each, in any run — any merge of the readers'
forwarded item sequences onto the shared item stream and any sealing
decisions of the assembly engine consuming it — the multiset of items
observed across all sealed batches is exactly the union of the K input
sequences: K×n items in total, each input item appearing exactly once;
neither the fan-in nor the assembly loses or duplicates anything. -/
theorem fan_in_assembly_no_loss_no_duplication {α ε : Type} [DecidableEq α]
    (K n : Nat) (srcs : List (List α))
    (traces : List (List (SrcEvent α ε))) (m : List α)
    (sealP : Nat → List α → Bool)
    (_hK : 1 ≤ K) (hlen : srcs.length = K)
    (hn : ∀ s ∈ srcs, s.length = n)
    (hdisj : srcs.flatten.Nodup)
    (htr : List.Forall₂ (fun is t => SrcTrace is ([] : List ε) t) srcs traces)
    (hm : MergeAll (traces.map fun t => outItems (readOut t)) m) :
    ((assemble sealP 0 [] m).flatten).length = K * n ∧
    ∀ x ∈ srcs.flatten, ((assemble sealP 0 [] m).flatten).count x = 1 := by
  rw [readOuts_eq_srcs htr] at hm
  have hp := mergeAll_perm hm
  rw [assemble_flatten]
  simp only [List.nil_append]
  constructor
  · rw [hp.length_eq, length_flatten_const srcs n hn, hlen]
  · intro x hx
    rw [hp.count_eq x]
    exact List.count_eq_one_of_mem hdisj hx

/-- Witness for C2 with two readers producing [0] and [1] and an oracle
sealing every buffer immediately, giving batches [0] and [1]. -/
theorem fan_in_assembly_no_loss_no_duplication_witness :
    MergeAll
      (([[SrcEvent.item (0 : Nat), SrcEvent.closeItems,
            SrcEvent.closeErrs (ε := Unit)],
          [SrcEvent.item 1, SrcEvent.closeItems, SrcEvent.closeErrs]]
        : List (List (SrcEvent Nat Unit))).map
        fun t => outItems (readOut t)) [0, 1] ∧
    (((assemble (fun _ _ => true) 0 [] [(0 : Nat), 1]).flatten).length
        = 2 * 1 ∧
      ∀ x ∈ ([[(0 : Nat)], [1]] : List (List Nat)).flatten,
        ((assemble (fun _ _ => true) 0 [] [(0 : Nat), 1]).flatten).count x
          = 1) := by
  have hmapeq :
      (([[SrcEvent.item (0 : Nat), SrcEvent.closeItems,
            SrcEvent.closeErrs (ε := Unit)],
          [SrcEvent.item 1, SrcEvent.closeItems, SrcEvent.closeErrs]]
        : List (List (SrcEvent Nat Unit))).map
        fun t => outItems (readOut t)) = [[0], [1]] := by decide
  have hm : MergeAll
      (([[SrcEvent.item (0 : Nat), SrcEvent.closeItems,
            SrcEvent.closeErrs (ε := Unit)],
          [SrcEvent.item 1, SrcEvent.closeItems, SrcEvent.closeErrs]]
        : List (List (SrcEvent Nat Unit))).map
        fun t => outItems (readOut t)) [0, 1] := by
    rw [hmapeq]
    exact MergeAll.cons (Interleave.left (Interleave.right Interleave.nil))
      (MergeAll.cons (interleave_with_nil [1]) MergeAll.nil)
  have ht0 : SrcTrace [(0 : Nat)] ([] : List Unit)
      [SrcEvent.item 0, SrcEvent.closeItems, SrcEvent.closeErrs] :=
    ⟨[SrcEvent.item 0, SrcEvent.closeItems, SrcEvent.closeErrs], [],
      by decide,
      Interleave.left (Interleave.left (Interleave.right Interleave.nil)),
      interleave_with_nil _⟩
  have ht1 : SrcTrace [(1 : Nat)] ([] : List Unit)
      [SrcEvent.item 1, SrcEvent.closeItems, SrcEvent.closeErrs] :=
    ⟨[SrcEvent.item 1, SrcEvent.closeItems, SrcEvent.closeErrs], [],
      by decide,
      Interleave.left (Interleave.left (Interleave.right Interleave.nil)),
      interleave_with_nil _⟩
  refine ⟨hm, ?_⟩
  exact fan_in_assembly_no_loss_no_duplication 2 1 [[0], [1]] _ [0, 1]
    (fun _ _ => true) (by decide) (by decide) (by decide) (by decide)
    (List.Forall₂.cons ht0 (List.Forall₂.cons ht1 List.Forall₂.nil)) hm

/-- C4: in every doReaders execution, a close of either shared stream can
only occur as the supervisor's final closeItems-closeErrs pair, at a point
where every reader task has terminated having seen both of its own source
streams closed, after which the supervisor is finished; and whenever all
readers are done the supervisor's closing step closes both shared streams.
-/
theorem doReaders_close_after_all_readers {α ε : Type}
    (traces : List (List (SrcEvent α ε))) (h : List (DREvent α ε))
    (s : DRState α ε) (hex : DRExec traces DRInit h s)
    (hc : DREvent.closeItems ∈ h ∨ DREvent.closeErrs ∈ h) :
    ((∃ h₁, h = h₁ ++ [DREvent.closeItems, DREvent.closeErrs] ∧
      DREvent.closeItems ∉ h₁ ∧ DREvent.closeErrs ∉ h₁) ∧
    (∀ r ∈ s.readers, readDone r.st = true) ∧
    s.phase = DRPhase.finished) ∧
    (∀ rs : List (Reader α ε), (∀ r ∈ rs, readDone r.st = true) →
      DRStep traces ⟨rs, DRPhase.wait⟩
        [DREvent.closeItems, DREvent.closeErrs] ⟨rs, DRPhase.finished⟩) :=
  ⟨drexec_close_safety hex hc, fun rs hall => DRStep.close rs hall⟩

/-- Witness for C4: one reader whose source closes both streams at once.
-/
theorem doReaders_close_after_all_readers_witness :
    ((∃ h₁, ([DREvent.spawnRead, DREvent.closeItems, DREvent.closeErrs]
          : List (DREvent Nat Nat))
        = h₁ ++ [DREvent.closeItems, DREvent.closeErrs] ∧
        DREvent.closeItems ∉ h₁ ∧ DREvent.closeErrs ∉ h₁) ∧
      (∀ r ∈ (⟨[⟨⟨true, true⟩, []⟩], DRPhase.finished⟩
          : DRState Nat Nat).readers, readDone r.st = true) ∧
      (⟨[⟨⟨true, true⟩, []⟩], DRPhase.finished⟩
          : DRState Nat Nat).phase = DRPhase.finished) ∧
    (∀ rs : List (Reader Nat Nat), (∀ r ∈ rs, readDone r.st = true) →
      DRStep [[SrcEvent.closeItems, SrcEvent.closeErrs]]
        ⟨rs, DRPhase.wait⟩ [DREvent.closeItems, DREvent.closeErrs]
        ⟨rs, DRPhase.finished⟩) := by
  have hex : DRExec
      [[SrcEvent.closeItems (α := Nat) (ε := Nat), SrcEvent.closeErrs]]
      DRInit [DREvent.spawnRead, DREvent.closeItems, DREvent.closeErrs]
      ⟨[⟨⟨true, true⟩, []⟩], DRPhase.finished⟩ := by
    refine DRExec.step (DRStep.spawnPos (by decide)) ?_
    refine DRExec.step
      (DRStep.readerStep
        [⟨⟨false, false⟩, [SrcEvent.closeItems, SrcEvent.closeErrs]⟩]
        0 ⟨⟨false, false⟩, [SrcEvent.closeItems, SrcEvent.closeErrs]⟩
        SrcEvent.closeItems [SrcEvent.closeErrs] rfl rfl rfl) ?_
    refine DRExec.step
      (DRStep.readerStep [⟨⟨true, false⟩, [SrcEvent.closeErrs]⟩]
        0 ⟨⟨true, false⟩, [SrcEvent.closeErrs]⟩
        SrcEvent.closeErrs [] rfl rfl rfl) ?_
    refine DRExec.step (DRStep.close [⟨⟨true, true⟩, []⟩] (by decide)) ?_
    exact DRExec.refl _
  exact doReaders_close_after_all_readers _ _ _ hex (Or.inl (by simp))

/-- C5: with read concurrency 0, no `src.Read` is ever spawned, no item is
ever forwarded, the only error ever reported is the configuration error,
and the completed run's history is exactly that one error followed by the
closes of the shared streams. -/
theorem doReaders_zero_concurrency {α ε : Type} (h : List (DREvent α ε))
    (s : DRState α ε)
    (hex : DRExec ([] : List (List (SrcEvent α ε))) DRInit h s) :
    DREvent.spawnRead ∉ h ∧
    (∀ a : α, DREvent.out (OutEvent.item a) ∉ h) ∧
    (∀ g : GoError ε, DREvent.out (OutEvent.err g) ∈ h →
      g = GoError.readConcurrencyZero) ∧
    (s.phase = DRPhase.finished →
      h = [DREvent.out (OutEvent.err GoError.readConcurrencyZero),
        DREvent.closeItems, DREvent.closeErrs]) := by
  rcases drexec_zero hex with ⟨he, hs⟩ | ⟨he, hs⟩ | ⟨he, hs⟩
  · subst he
    subst hs
    refine ⟨by simp, fun a => by simp, fun g hg => by simp at hg, fun hf => ?_⟩
    simp [DRInit] at hf
  · subst he
    subst hs
    refine ⟨by simp, fun a => by simp, fun g hg => ?_, fun hf => ?_⟩
    · simp at hg
      exact hg
    · simp at hf
  · subst he
    subst hs
    refine ⟨by simp, fun a => by simp, fun g hg => ?_, fun hf => rfl⟩
    simp at hg
    exact hg

/-- Witness for C5: the complete zero-concurrency run. -/
theorem doReaders_zero_concurrency_witness :
    DREvent.spawnRead ∉
      ([DREvent.out (OutEvent.err GoError.readConcurrencyZero),
        DREvent.closeItems, DREvent.closeErrs] : List (DREvent Nat Nat)) ∧
    (∀ a : Nat, DREvent.out (OutEvent.item a) ∉
      ([DREvent.out (OutEvent.err GoError.readConcurrencyZero),
        DREvent.closeItems, DREvent.closeErrs] : List (DREvent Nat Nat))) ∧
    (∀ g : GoError Nat, DREvent.out (OutEvent.err g) ∈
      ([DREvent.out (OutEvent.err GoError.readConcurrencyZero),
        DREvent.closeItems, DREvent.closeErrs] : List (DREvent Nat Nat)) →
      g = GoError.readConcurrencyZero) ∧
    ((⟨[], DRPhase.finished⟩ : DRState Nat Nat).phase = DRPhase.finished →
      ([DREvent.out (OutEvent.err GoError.readConcurrencyZero),
        DREvent.closeItems, DREvent.closeErrs] : List (DREvent Nat Nat))
        = [DREvent.out (OutEvent.err GoError.readConcurrencyZero),
          DREvent.closeItems, DREvent.closeErrs]) := by
  have hex : DRExec ([] : List (List (SrcEvent Nat Nat))) DRInit
      [DREvent.out (OutEvent.err GoError.readConcurrencyZero),
        DREvent.closeItems, DREvent.closeErrs]
      ⟨[], DRPhase.finished⟩ := by
    refine DRExec.step (DRStep.spawnZero (by simp)) ?_
    refine DRExec.step (DRStep.close [] (by simp)) ?_
    exact DRExec.refl _
  exact doReaders_zero_concurrency _ _ hex

/-- C7: in every run, whenever the done channel has been closed, the run
state has returned to idle (`running = false`) and both ingestion and
dispatch have fully drained — so the completion signal is never observable
while the run is still Running — and no further lifecycle step exists from
that state, so the signal becomes observable exactly once, at the close
performed together with the transition back to idle. -/
theorem done_signal_exactly_once_after_drain (s : LifeState)
    (h : LifeReach runStart s) (hd : s.doneClosed = true) :
    s.running = false ∧ s.ingestDrained = true ∧ s.dispatchDrained = true ∧
    ∀ s', ¬ LifeStep s s' := by
  obtain ⟨i1, i2⟩ := lifeReach_invariant h
  obtain ⟨hr, hi, hdp⟩ := i2 hd
  exact ⟨hr, hi, hdp, lifeStep_none_after_done hi hdp hd⟩

/-- Witness for C7: the completed run reached by draining ingestion, then
dispatch, then closing the done channel. -/
theorem done_signal_exactly_once_after_drain_witness :
    LifeReach runStart ⟨false, true, true, true⟩ ∧
    ((⟨false, true, true, true⟩ : LifeState).running = false ∧
      (⟨false, true, true, true⟩ : LifeState).ingestDrained = true ∧
      (⟨false, true, true, true⟩ : LifeState).dispatchDrained = true ∧
      ∀ s', ¬ LifeStep ⟨false, true, true, true⟩ s') := by
  have hr : LifeReach runStart ⟨false, true, true, true⟩ := by
    refine LifeReach.step (LifeReach.step (LifeReach.step
      (LifeReach.refl _) (LifeStep.ingest _ rfl))
      (LifeStep.dispatch _ rfl rfl)) (LifeStep.finish _ rfl rfl)
  exact ⟨hr, done_signal_exactly_once_after_drain _ hr rfl⟩

end GoBatch
